import Mathlib

set_option maxHeartbeats 1000000

/- Shallow embedding of the grid library (src/grid/src/lib.rs).

Machine-integer conventions: Rust `isize` values are modelled as mathematical
integers, `usize` values as natural numbers.  The casts the code performs are
made explicit: `as usize` on an `isize` reduces modulo `2 ^ 64`, `as isize` on
a `usize` wraps into the signed range, `as u32` truncates modulo `2 ^ 32`.
Operations that can panic in Rust (slice indexing out of bounds,
`try_into().unwrap()`) are modelled in the `Option` monad, `none` standing for
the panic. -/

/-- Location models the Rust struct `Location(pub isize, pub isize)`:
field `x` is `.0` (the column) and field `y` is `.1` (the row). -/
structure Location where
  x : Int
  y : Int
deriving DecidableEq

/-- The `cmp` of `impl Ord for Location`: compare the second fields (rows)
first; on a tie compare the first fields (columns). -/
def Location.cmp (a b : Location) : Ordering :=
  let o := compare a.y b.y
  match o with
  | Ordering.lt => o
  | Ordering.eq => compare a.x b.x
  | Ordering.gt => o

/-- Manhattan distance as `Location::distance` computes it:
`abs_diff` on each coordinate is exact, the `usize` addition wraps modulo
`2 ^ 64` (release-profile semantics; the wrap is reachable only for
coordinate spans beyond `2 ^ 63`), and the final `as u32` cast truncates the
result modulo `2 ^ 32`. -/
def Location.distance (a b : Location) : Nat :=
  (((a.x - b.x).natAbs + (a.y - b.y).natAbs) % 2 ^ 64) % 2 ^ 32

/-- The cast `i as usize` on an `isize` value `i`, on a 64-bit platform. -/
def castUsize (i : Int) : Nat :=
  (i % 2 ^ 64).toNat

/-- The cast `n as usize as isize` direction: `n as isize` on a `usize`
value `n`, wrapping into the signed 64-bit range. -/
def castIsize (n : Nat) : Int :=
  if n % 2 ^ 64 < 2 ^ 63 then ((n % 2 ^ 64 : Nat) : Int)
  else ((n % 2 ^ 64 : Nat) : Int) - 2 ^ 64

/-- Grid models the Rust struct `Grid<T>` with fields `g`, `width`, `height`.
The element type is any type with a distinguished default value, passed
explicitly where the Rust code uses `T::default()`. -/
structure Grid (T : Type) where
  g : List (List T)
  width : Nat
  height : Nat
deriving DecidableEq

/-- `Grid::new(x, y)`: a `y`-outer, `x`-inner matrix of default values,
recording the requested dimensions. -/
def Grid.new {T : Type} (d : T) (x y : Nat) : Grid T :=
  { g := List.replicate y (List.replicate x d), width := x, height := y }

/-- Well-formedness invariant of a grid value: the row list matches the
recorded height and every row matches the recorded width.  `Grid::new`
establishes it and `add` preserves it. -/
def Grid.WF {T : Type} (gr : Grid T) : Prop :=
  gr.g.length = gr.height ∧ ∀ row ∈ gr.g, row.length = gr.width

instance {T : Type} (gr : Grid T) : Decidable gr.WF := by
  unfold Grid.WF
  infer_instance

/-- `Grid::get`: `&self.g[l.1 as usize][l.0 as usize]`.  `none` models the
index-out-of-bounds panic. -/
def Grid.get? {T : Type} (gr : Grid T) (l : Location) : Option T :=
  (gr.g[castUsize l.y]?).bind fun row => row[castUsize l.x]?

/-- `Grid::get_mut` performs the same indexing `&mut self.g[l.1 as usize][l.0 as usize]`;
its lookup (and hence its panic behaviour) is modelled like `get`. -/
def Grid.getMut? {T : Type} (gr : Grid T) (l : Location) : Option T :=
  (gr.g[castUsize l.y]?).bind fun row => row[castUsize l.x]?

/-- `Grid::add`: `self.g[l.1 as usize][l.0 as usize] = t`.  `none` models the
index-out-of-bounds panic; otherwise the updated grid is returned. -/
def Grid.add? {T : Type} (gr : Grid T) (l : Location) (t : T) : Option (Grid T) :=
  let r := castUsize l.y
  let c := castUsize l.x
  match gr.g[r]? with
  | none => none
  | some row =>
      if c < row.length then
        some { gr with g := gr.g.set r (row.set c t) }
      else none

/-- Run a sequence of `add` calls left to right. -/
def Grid.applyAdds {T : Type} (gr : Grid T) (ops : List (Location × T)) : Option (Grid T) :=
  ops.foldlM (fun g p => g.add? p.1 p.2) gr

/-- The value of the most recent entry of `ops` at location `l`, if any. -/
def lastAdded {T : Type} (ops : List (Location × T)) (l : Location) : Option T :=
  ((ops.filter fun p => decide (p.1 = l)).getLast?).map Prod.snd

/-- The method `Grid::width()`: `self.g[0].len()`.  Note it reads the row
list, not the stored `width` field; `none` models the panic of `self.g[0]`
on an empty row list. -/
def Grid.widthFn {T : Type} (gr : Grid T) : Option Nat :=
  gr.g.head?.map List.length

/-- The method `Grid::height()`: `self.g.len()`. -/
def Grid.heightFn {T : Type} (gr : Grid T) : Nat :=
  gr.g.length

/-- The four orthogonal candidate offsets of `neighbors_impl`, in source
order: `(x+1,y), (x-1,y), (x,y+1), (x,y-1)`. -/
def Location.orthTests (l : Location) : List (Int × Int) :=
  [(l.x + 1, l.y), (l.x - 1, l.y), (l.x, l.y + 1), (l.x, l.y - 1)]

/-- The four diagonal candidate offsets pushed when `all` is true, in source
order: `(x+1,y+1), (x+1,y-1), (x-1,y+1), (x-1,y-1)`. -/
def Location.diagTests (l : Location) : List (Int × Int) :=
  [(l.x + 1, l.y + 1), (l.x + 1, l.y - 1), (l.x - 1, l.y + 1), (l.x - 1, l.y - 1)]

/-- The bounds test of `neighbors_impl`:
`t.0 >= 0 && t.1 >= 0 && t.0 < self.g[0].len() as isize && t.1 < self.g.len() as isize`.
The `&&` short-circuits, so `self.g[0]` (whose panic on an empty row list is
the `none` case) is evaluated only when both sign tests pass. -/
def Grid.boundsTest {T : Type} (gr : Grid T) (t : Int × Int) : Option Bool :=
  if t.1 < 0 ∨ t.2 < 0 then some false
  else
    match gr.g.head? with
    | none => none
    | some row0 =>
        some (decide (t.1 < castIsize row0.length) && decide (t.2 < castIsize gr.g.length))

/-- The cell read `&self.g[t.1 as usize][t.0 as usize]` of `neighbors_impl`. -/
def Grid.cellAt {T : Type} (gr : Grid T) (t : Int × Int) : Option T :=
  (gr.g[castUsize t.2]?).bind fun row => row[castUsize t.1]?

/-- The body of the `for t in &tests` loop of `neighbors_impl`: test the
candidate and, when it passes, push it together with the cell stored there. -/
def Grid.neighStep {T : Type} (gr : Grid T) (n : List (Location × T)) (t : Int × Int) :
    Option (List (Location × T)) := do
  let b ← gr.boundsTest t
  if b then
    let v ← gr.cellAt t
    pure (n ++ [(Location.mk t.1 t.2, v)])
  else
    pure n

/-- `Grid::neighbors_impl`: fold over the candidate list, appending each
candidate that passes the bounds test, paired with the cell stored there. -/
def Grid.neighborsImpl {T : Type} (gr : Grid T) (l : Location) (all : Bool) :
    Option (List (Location × T)) :=
  (l.orthTests ++ if all then l.diagTests else []).foldlM gr.neighStep []

/-- `Grid::neighbors`: `neighbors_impl(l, false)`. -/
def Grid.neighbors {T : Type} (gr : Grid T) (l : Location) : Option (List (Location × T)) :=
  gr.neighborsImpl l false

/-- `Grid::neighbors_all`: `neighbors_impl(l, true)`. -/
def Grid.neighborsAll {T : Type} (gr : Grid T) (l : Location) : Option (List (Location × T)) :=
  gr.neighborsImpl l true

/-- One call of `GridIter::next`, given the saved cursor `cur`.
Outer `none` models a panic (of `try_into().unwrap()` when a dimension
exceeds the `isize` range, or of `get` at an out-of-range cursor); otherwise
`some none` models the iterator answering `None` (the new cursor is `None`),
and `some (some (item, c))` models yielding `item` with new cursor `c`.
The cursor increments `c.0`, wraps to the next row when it reaches
`self.grid.width`, and finishes when the row index reaches
`self.grid.height`; on a `None` cursor it starts at `Location(0, 0)` without
any bounds check and immediately calls `get` there. -/
def Grid.iterNext {T : Type} (gr : Grid T) (cur : Option Location) :
    Option (Option ((Location × T) × Location)) :=
  match cur with
  | none =>
      match gr.get? (Location.mk 0 0) with
      | none => none
      | some v => some (some ((Location.mk 0 0, v), Location.mk 0 0))
  | some c =>
      if gr.width ≥ 2 ^ 63 then none
      else if gr.height ≥ 2 ^ 63 then none
      else
        let c0 := c.x + 1
        let p := if c0 ≥ (gr.width : Int) then ((0 : Int), c.y + 1) else (c0, c.y)
        if p.2 ≥ (gr.height : Int) then some none
        else
          match gr.get? (Location.mk p.1 p.2) with
          | none => none
          | some v => some (some ((Location.mk p.1 p.2, v), Location.mk p.1 p.2))

/-- Drive the iterator with explicit fuel: collect the yielded items until
the iterator answers `None`.  Outer `none` models either a panic inside
`next` or fuel exhaustion. -/
def Grid.iterFrom {T : Type} (gr : Grid T) (fuel : Nat) (cur : Option Location) :
    Option (List (Location × T)) :=
  match fuel with
  | 0 => none
  | fuel + 1 =>
      match gr.iterNext cur with
      | none => none
      | some none => some []
      | some (some (item, c)) => (gr.iterFrom fuel (some c)).map fun L => item :: L

/-- The full traversal `grid.iter().collect()`, with enough fuel for the
`width * height` yields plus the final `None`. -/
def Grid.iterList {T : Type} (gr : Grid T) : Option (List (Location × T)) :=
  gr.iterFrom (gr.width * gr.height + 1) none

/-- The row-major enumeration of the coordinates of a `w`-by-`h` grid, as the
specification describes the iteration order: row 0 left to right, then
row 1, and so on. -/
def rowMajorLocs (w h : Nat) : List Location :=
  (List.range h).flatMap fun r => (List.range w).map fun (c : Nat) => Location.mk (c : Int) (r : Int)

/-- The coordinate at flat row-major index `i` of a width-`w` grid. -/
def idxLoc (w i : Nat) : Location :=
  Location.mk (i % w : Nat) (i / w : Nat)

/-- The in-bounds predicate of the specification for a candidate `(col, row)`
pair: inside `[0, width) x [0, height)`. -/
def Grid.inBoundsB {T : Type} (gr : Grid T) (t : Int × Int) : Bool :=
  decide (0 ≤ t.1) && decide (0 ≤ t.2) &&
    decide (t.1 < (gr.width : Int)) && decide (t.2 < (gr.height : Int))

/-- The neighbor list the specification describes, for a given candidate
list: keep the in-bounds candidates in order, each paired with the cell
stored there. -/
def Grid.neighborsFromSpec {T : Type} (gr : Grid T) (cands : List (Int × Int)) :
    List (Location × T) :=
  cands.filterMap fun t =>
    if gr.inBoundsB t then (gr.cellAt t).map fun v => (Location.mk t.1 t.2, v)
    else none

/-- The coordinates are representable as 64-bit signed machine integers. -/
def Location.isizeOk (l : Location) : Prop :=
  -2 ^ 63 ≤ l.x ∧ l.x < 2 ^ 63 ∧ -2 ^ 63 ≤ l.y ∧ l.y < 2 ^ 63

instance (l : Location) : Decidable l.isizeOk := by
  unfold Location.isizeOk
  infer_instance

/-- The coordinates are strictly inside the 64-bit signed range, so that the
plus-one and minus-one candidate offsets cannot overflow an `isize`. -/
def Location.interiorOk (l : Location) : Prop :=
  -2 ^ 63 < l.x ∧ l.x < 2 ^ 63 - 1 ∧ -2 ^ 63 < l.y ∧ l.y < 2 ^ 63 - 1

instance (l : Location) : Decidable l.interiorOk := by
  unfold Location.interiorOk
  infer_instance

/-- The location lies inside `[0, w) x [0, h)`: the validity condition the
specification states for indexing a `w`-by-`h` grid. -/
def inGrid (w h : Nat) (l : Location) : Prop :=
  0 ≤ l.x ∧ l.x < (w : Int) ∧ 0 ≤ l.y ∧ l.y < (h : Int)

instance (w h : Nat) (l : Location) : Decidable (inGrid w h l) := by
  unfold inGrid
  infer_instance

/- Helper lemmas about the machine-integer casts. -/

theorem castUsize_of_nonneg {i : Int} (h0 : 0 ≤ i) (h1 : i < 2 ^ 64) :
    (castUsize i : Int) = i := by
  unfold castUsize
  rw [Int.emod_eq_of_lt h0 h1]
  omega

theorem castUsize_coe (n : Nat) (h : n < 2 ^ 64) : castUsize (n : Int) = n := by
  have := castUsize_of_nonneg (i := (n : Int)) (by omega) (by exact_mod_cast h)
  omega

theorem castUsize_ge_of_neg {i : Int} (h0 : -2 ^ 63 ≤ i) (h1 : i < 0) :
    2 ^ 63 ≤ castUsize i := by
  unfold castUsize
  omega

theorem castIsize_small {n : Nat} (h : n < 2 ^ 63) : castIsize n = n := by
  unfold castIsize
  have h64 : n % 2 ^ 64 = n := Nat.mod_eq_of_lt (by omega)
  rw [h64, if_pos h]

/- Helper lemmas about the row-major ordering. -/

theorem Location.cmp_def (a b : Location) :
    a.cmp b =
      match compare a.y b.y with
      | Ordering.lt => Ordering.lt
      | Ordering.eq => compare a.x b.x
      | Ordering.gt => Ordering.gt := by
  unfold Location.cmp
  cases compare a.y b.y <;> rfl

theorem Location.cmp_eq_lt {a b : Location} :
    a.cmp b = Ordering.lt ↔ (a.y < b.y ∨ (a.y = b.y ∧ a.x < b.x)) := by
  rw [Location.cmp_def]
  rcases hy : compare a.y b.y with _ | _ | _
  · have hlt := compare_lt_iff_lt.mp hy
    simp [hlt]
  · have heq := compare_eq_iff_eq.mp hy
    simp [heq, compare_lt_iff_lt]
  · have hgt := compare_gt_iff_gt.mp hy
    have h1 : ¬ (a.y < b.y ∨ (a.y = b.y ∧ a.x < b.x)) := by omega
    simp [h1]

theorem Location.cmp_eq_eq {a b : Location} : a.cmp b = Ordering.eq ↔ a = b := by
  rw [Location.cmp_def]
  rcases hy : compare a.y b.y with _ | _ | _
  · have hlt := compare_lt_iff_lt.mp hy
    have h1 : a ≠ b := by
      rintro rfl
      omega
    simp [h1]
  · have heq := compare_eq_iff_eq.mp hy
    simp only [compare_eq_iff_eq]
    constructor
    · intro hxx
      obtain ⟨ax, ay⟩ := a
      obtain ⟨bx, byy⟩ := b
      simp_all
    · rintro rfl
      rfl
  · have hgt := compare_gt_iff_gt.mp hy
    have h1 : a ≠ b := by
      rintro rfl
      omega
    simp [h1]

theorem Location.cmp_eq_gt_iff {a b : Location} :
    a.cmp b = Ordering.gt ↔ (b.y < a.y ∨ (b.y = a.y ∧ b.x < a.x)) := by
  rw [Location.cmp_def]
  rcases hy : compare a.y b.y with _ | _ | _
  · have hlt := compare_lt_iff_lt.mp hy
    have h1 : ¬ (b.y < a.y ∨ (b.y = a.y ∧ b.x < a.x)) := by omega
    simp [h1]
  · have heq := compare_eq_iff_eq.mp hy
    simp [heq, compare_gt_iff_gt]
  · have hgt := compare_gt_iff_gt.mp hy
    have h1 : b.y < a.y := hgt
    simp [h1]

theorem Location.cmp_eq_gt {a b : Location} :
    a.cmp b = Ordering.gt ↔ b.cmp a = Ordering.lt := by
  rw [Location.cmp_eq_gt_iff, Location.cmp_eq_lt]

/-- C5: the ordering on Location is a total order consistent with equality
and is row-major: `cmp a b = lt` exactly when `a.y < b.y`, or `a.y = b.y`
and `a.x < b.x`; equality of the comparison coincides with equality of the
locations, `gt` is the mirror of `lt`, and `lt` is transitive (with the
three-valued `cmp` this yields trichotomy, hence a total order). -/
theorem location_order_row_major (a b c : Location) :
    (Location.cmp a b = Ordering.eq ↔ a = b) ∧
    (Location.cmp a b = Ordering.lt ↔ (a.y < b.y ∨ (a.y = b.y ∧ a.x < b.x))) ∧
    (Location.cmp a b = Ordering.gt ↔ Location.cmp b a = Ordering.lt) ∧
    (Location.cmp a b = Ordering.lt → Location.cmp b c = Ordering.lt →
      Location.cmp a c = Ordering.lt) := by
  refine ⟨Location.cmp_eq_eq, Location.cmp_eq_lt, Location.cmp_eq_gt, ?_⟩
  intro h1 h2
  rw [Location.cmp_eq_lt] at h1 h2 ⊢
  rcases h1 with h1 | h1 <;> rcases h2 with h2 | h2
  · exact Or.inl (by omega)
  · exact Or.inl (by omega)
  · exact Or.inl (by omega)
  · exact Or.inr ⟨by omega, by omega⟩

/-- Witness for C5 at concrete locations: transitivity applied to
`(0,0) < (1,0) < (0,1)` in reading order. -/
theorem location_order_row_major_witness :
    Location.cmp ⟨0, 0⟩ ⟨0, 1⟩ = Ordering.lt :=
  (location_order_row_major ⟨0, 0⟩ ⟨1, 0⟩ ⟨0, 1⟩).2.2.2 (by decide) (by decide)

/- Claim C4: Manhattan distance. -/

theorem Int.natAbs_sub_swap (x y : Int) : (x - y).natAbs = (y - x).natAbs := by
  rw [← Int.natAbs_neg, neg_sub]

/-- Counterexample to C4: the final `as u32` cast truncates the result, so
two distinct locations whose Manhattan distance is `2 ^ 32` have reported
distance `0`.  This falsifies both `distance(a,b) = |Δcol| + |Δrow|` and
`distance(a,b) = 0` iff `a = b` at a concrete input. -/
theorem distance_truncation_cex :
    Location.distance ⟨4294967296, 0⟩ ⟨0, 0⟩ = 0 ∧
      (⟨4294967296, 0⟩ : Location) ≠ ⟨0, 0⟩ := by
  constructor
  · decide
  · decide

/-- C4 (amended): `distance` is commutative for all locations, and it equals
the Manhattan distance `|Δcol| + |Δrow|` — and is zero exactly on equal
locations — whenever that Manhattan distance is below `2 ^ 32`; in general
the `as u32` cast truncates the value modulo `2 ^ 32`.  The absolute
differences themselves are computed without signed overflow (`abs_diff` is
modelled exactly). -/
theorem distance_mod_spec (a b : Location) :
    a.distance b = b.distance a ∧
    ((a.x - b.x).natAbs + (a.y - b.y).natAbs < 2 ^ 32 →
      a.distance b = (a.x - b.x).natAbs + (a.y - b.y).natAbs ∧
      (a.distance b = 0 ↔ a = b)) := by
  constructor
  · unfold Location.distance
    rw [Int.natAbs_sub_swap a.x b.x, Int.natAbs_sub_swap a.y b.y]
  · intro hsmall
    have hdist : a.distance b = (a.x - b.x).natAbs + (a.y - b.y).natAbs := by
      unfold Location.distance
      rw [Nat.mod_eq_of_lt (by omega), Nat.mod_eq_of_lt (by omega)]
    refine ⟨hdist, ?_⟩
    rw [hdist]
    constructor
    · intro h0
      have h1 : (a.x - b.x).natAbs = 0 := by omega
      have h2 : (a.y - b.y).natAbs = 0 := by omega
      have hx : a.x - b.x = 0 := Int.natAbs_eq_zero.mp h1
      have hy : a.y - b.y = 0 := Int.natAbs_eq_zero.mp h2
      obtain ⟨ax, ay⟩ := a
      obtain ⟨bx, byy⟩ := b
      dsimp only at hx hy
      simp only [Location.mk.injEq]
      exact ⟨by omega, by omega⟩
    · rintro rfl
      simp

/-- Witness for C4 at concrete locations inside the truncation-free range. -/
theorem distance_mod_spec_witness :
    Location.distance ⟨3, 5⟩ ⟨1, 2⟩ = ((3 - 1 : Int)).natAbs + ((5 - 2 : Int)).natAbs ∧
      (Location.distance ⟨3, 5⟩ ⟨1, 2⟩ = 0 ↔ (⟨3, 5⟩ : Location) = ⟨1, 2⟩) :=
  (distance_mod_spec ⟨3, 5⟩ ⟨1, 2⟩).2 (by decide)

/- Claim C6: width() / height() reporting. -/

/-- Counterexample to C6: `width()` reads `self.g[0].len()`, so on a grid
constructed with height `0` it indexes an empty row list and faults instead
of returning the constructed width `5`. -/
theorem width_on_empty_cex :
    (Grid.new (0 : Nat) 5 0).widthFn = none ∧ (Grid.new (0 : Nat) 5 0).heightFn = 0 := by
  constructor
  · rfl
  · rfl

/-- C6 (amended): `height()` always returns the construction-time height;
`width()` returns the construction-time width whenever the height is at
least `1`, but faults (indexes `g[0]` of an empty row list) on a height-`0`
grid; and a successful `add` changes neither reported dimension. -/
theorem width_height_report (T : Type) (d : T) (w h : Nat) :
    (Grid.new d w h).heightFn = h ∧
    (1 ≤ h → (Grid.new d w h).widthFn = some w) ∧
    (Grid.new d w 0).widthFn = none ∧
    (∀ (gr gr' : Grid T) (l : Location) (t : T), gr.add? l t = some gr' →
      gr'.widthFn = gr.widthFn ∧ gr'.heightFn = gr.heightFn) := by
  refine ⟨?_, ?_, ?_, ?_⟩
  · simp [Grid.new, Grid.heightFn]
  · intro hh
    obtain ⟨k, rfl⟩ : ∃ k, h = k + 1 := ⟨h - 1, by omega⟩
    simp [Grid.new, Grid.widthFn, List.replicate_succ]
  · rfl
  · intro gr gr' l t hadd
    simp only [Grid.add?] at hadd
    rcases hrow : gr.g[castUsize l.y]? with _ | row
    · rw [hrow] at hadd
      simp at hadd
    · rw [hrow] at hadd
      dsimp only at hadd
      by_cases hc : castUsize l.x < row.length
      · rw [if_pos hc] at hadd
        have hgr' : gr' = { gr with g := gr.g.set (castUsize l.y) (row.set (castUsize l.x) t) } := by
          cases hadd
          rfl
        subst hgr'
        have hlen : castUsize l.y < gr.g.length := by
          rcases List.getElem?_eq_some.mp hrow with ⟨hh, _⟩
          exact hh
        constructor
        · unfold Grid.widthFn
          rw [List.head?_eq_getElem?, List.head?_eq_getElem?, List.getElem?_set]
          by_cases h0 : castUsize l.y = 0
          · rw [if_pos h0, if_pos hlen, ← h0, hrow]
            simp [List.length_set]
          · rw [if_neg h0]
        · unfold Grid.heightFn
          simp [List.length_set]
      · rw [if_neg hc] at hadd
        simp at hadd

/-- Witness for C6: a concrete `add` on a 2-by-2 grid preserves the reported
dimensions. -/
theorem width_height_report_witness :
    ((⟨[[7, 0], [0, 0]], 2, 2⟩ : Grid Nat).widthFn = (Grid.new (0 : Nat) 2 2).widthFn ∧
      (⟨[[7, 0], [0, 0]], 2, 2⟩ : Grid Nat).heightFn = (Grid.new (0 : Nat) 2 2).heightFn) ∧
    (Grid.new (0 : Nat) 2 2).widthFn = some 2 :=
  ⟨(width_height_report Nat 0 2 2).2.2.2 (Grid.new (0 : Nat) 2 2) ⟨[[7, 0], [0, 0]], 2, 2⟩
      ⟨0, 0⟩ 7 (by decide),
    (width_height_report Nat 0 2 2).2.1 (by decide)⟩

/- Claim C8: out-of-range get / get_mut / add fault. -/

theorem grid_row_lookup {T : Type} {gr : Grid T} (hwf : gr.WF) {idx : Nat}
    (hidx : idx < gr.g.length) :
    ∃ row, gr.g[idx]? = some row ∧ row.length = gr.width := by
  refine ⟨gr.g[idx], List.getElem?_eq_getElem hidx, ?_⟩
  exact hwf.2 _ (List.getElem_mem hidx)

/-- C8: on a well-formed grid whose dimensions fit the machine (at most
`2 ^ 63`), accessing any `isize`-representable location outside
`[0, width) x [0, height)` through `get`, `get_mut` or `add` hits an
index-out-of-bounds fault (the `none` of the model, standing for the Rust
panic) — no recoverable error value is returned. -/
theorem out_of_bounds_access_faults (T : Type) (gr : Grid T) (l : Location)
    (hwf : gr.WF) (hw : gr.width ≤ 2 ^ 63) (hh : gr.height ≤ 2 ^ 63)
    (hiz : l.isizeOk) (hout : ¬ inGrid gr.width gr.height l) :
    gr.get? l = none ∧ gr.getMut? l = none ∧ ∀ t : T, gr.add? l t = none := by
  obtain ⟨hx0, hx1, hy0, hy1⟩ := hiz
  have hmain : gr.g[castUsize l.y]? = none ∨
      (∃ row, gr.g[castUsize l.y]? = some row ∧ row.length = gr.width ∧
        row.length ≤ castUsize l.x) := by
    by_cases hy : 0 ≤ l.y ∧ l.y < (gr.height : Int)
    · right
      have hyn : (castUsize l.y : Int) = l.y := castUsize_of_nonneg hy.1 (by omega)
      have hylt : castUsize l.y < gr.g.length := by
        rw [hwf.1]
        omega
      obtain ⟨row, hsome, hrlen⟩ := grid_row_lookup hwf hylt
      have hxout : gr.width ≤ castUsize l.x := by
        have hnx : ¬ (0 ≤ l.x ∧ l.x < (gr.width : Int)) := by
          unfold inGrid at hout
          tauto
        by_cases hxneg : l.x < 0
        · have := castUsize_ge_of_neg hx0 hxneg
          omega
        · have hxv : (castUsize l.x : Int) = l.x := castUsize_of_nonneg (by omega) (by omega)
          omega
      exact ⟨row, hsome, hrlen, by omega⟩
    · left
      have hyout : gr.g.length ≤ castUsize l.y := by
        rw [hwf.1]
        by_cases hyneg : l.y < 0
        · have := castUsize_ge_of_neg hy0 hyneg
          omega
        · have hyv : (castUsize l.y : Int) = l.y := castUsize_of_nonneg (by omega) (by omega)
          omega
      exact List.getElem?_eq_none hyout
  rcases hmain with hnone | ⟨row, hsome, hrlen, hge⟩
  · refine ⟨?_, ?_, fun t => ?_⟩ <;> simp [Grid.get?, Grid.getMut?, Grid.add?, hnone]
  · have hcell : row[castUsize l.x]? = none := List.getElem?_eq_none hge
    refine ⟨?_, ?_, fun t => ?_⟩
    · simp [Grid.get?, hsome, hcell]
    · simp [Grid.getMut?, hsome, hcell]
    · simp only [Grid.add?, hsome]
      rw [if_neg (by omega)]

/-- Witness for C8: the 3-by-3 default grid faults at column 3 of row 0. -/
theorem out_of_bounds_access_faults_witness :
    (Grid.new (0 : Nat) 3 3).get? ⟨3, 0⟩ = none ∧
      (Grid.new (0 : Nat) 3 3).getMut? ⟨3, 0⟩ = none ∧
      ∀ t : Nat, (Grid.new (0 : Nat) 3 3).add? ⟨3, 0⟩ t = none :=
  out_of_bounds_access_faults Nat (Grid.new 0 3 3) ⟨3, 0⟩ (by decide) (by decide) (by decide)
    (by decide) (by decide)

/- Claim C9: neighbors is an initial segment of neighbors_all. -/

theorem Grid.neighStep_shape {T : Type} {gr : Grid T} {n res : List (Location × T)}
    {t : Int × Int} (h : gr.neighStep n t = some res) :
    res = n ∨ ∃ v, gr.cellAt t = some v ∧ res = n ++ [(Location.mk t.1 t.2, v)] := by
  unfold Grid.neighStep at h
  rcases hb : gr.boundsTest t with _ | b
  · rw [hb] at h
    simp at h
  · rw [hb] at h
    cases b
    · simp at h
      exact Or.inl h.symm
    · rcases hc : gr.cellAt t with _ | v
      · rw [hc] at h
        simp [hc] at h
      · rw [hc] at h
        simp at h
        exact Or.inr ⟨v, rfl, h.symm⟩

theorem foldlM_neighStep_extends {T : Type} (gr : Grid T) :
    ∀ (cands : List (Int × Int)) (acc res : List (Location × T)),
      cands.foldlM gr.neighStep acc = some res →
      ∃ ext, res = acc ++ ext ∧
        ∀ p ∈ ext, p.1 ∈ cands.map fun t => Location.mk t.1 t.2 := by
  intro cands
  induction cands with
  | nil =>
    intro acc res h
    rw [List.foldlM_nil] at h
    cases h
    exact ⟨[], by simp⟩
  | cons t ts ih =>
    intro acc res h
    rw [List.foldlM_cons] at h
    rcases hstep : gr.neighStep acc t with _ | mid
    · rw [hstep] at h
      simp at h
    · rw [hstep] at h
      simp only [Option.bind_eq_bind, Option.some_bind] at h
      obtain ⟨ext, rfl, hmem⟩ := ih mid res h
      rcases Grid.neighStep_shape hstep with hcase | ⟨v, _, hcase⟩
      · subst hcase
        refine ⟨ext, rfl, fun p hp => ?_⟩
        simp only [List.map_cons, List.mem_cons]
        exact Or.inr (hmem p hp)
      · subst hcase
        refine ⟨(Location.mk t.1 t.2, v) :: ext, by simp, fun p hp => ?_⟩
        simp only [List.map_cons, List.mem_cons]
        rcases List.mem_cons.mp hp with rfl | hp2
        · exact Or.inl rfl
        · exact Or.inr (hmem p hp2)

/-- C9: whenever `neighbors_all` returns a list, `neighbors` returns exactly
an initial segment of it: the orthogonal results come first, in the same
order, and the remainder consists only of diagonal-offset locations. -/
theorem neighbors_initial_segment (T : Type) (gr : Grid T) (l : Location)
    (L : List (Location × T)) (h : gr.neighborsAll l = some L) :
    ∃ L1 L2, gr.neighbors l = some L1 ∧ L = L1 ++ L2 ∧
      ∀ p ∈ L2, p.1 ∈ l.diagTests.map fun t => Location.mk t.1 t.2 := by
  unfold Grid.neighborsAll Grid.neighborsImpl at h
  rw [show (if true then l.diagTests else ([] : List (Int × Int))) = l.diagTests from rfl]
    at h
  rw [List.foldlM_append] at h
  rcases h1 : l.orthTests.foldlM gr.neighStep ([] : List (Location × T)) with _ | L1
  · rw [h1] at h
    simp at h
  · rw [h1] at h
    simp only [Option.bind_eq_bind, Option.some_bind] at h
    obtain ⟨ext, rfl, hmem⟩ := foldlM_neighStep_extends gr l.diagTests L1 L h
    refine ⟨L1, ext, ?_, rfl, hmem⟩
    unfold Grid.neighbors Grid.neighborsImpl
    rw [show (if false then l.diagTests else ([] : List (Int × Int))) = [] from rfl,
      List.append_nil]
    exact h1

/-- Witness for C9: on a 2-by-2 default grid at the corner `(0,0)`,
`neighbors_all` yields three results and `neighbors` is its two-element
initial segment. -/
theorem neighbors_initial_segment_witness :
    ∃ L1 L2, (Grid.new (0 : Nat) 2 2).neighbors ⟨0, 0⟩ = some L1 ∧
      ([(⟨1, 0⟩, 0), (⟨0, 1⟩, 0), (⟨1, 1⟩, 0)] : List (Location × Nat)) = L1 ++ L2 ∧
      ∀ p ∈ L2, p.1 ∈ (Location.diagTests ⟨0, 0⟩).map fun t => Location.mk t.1 t.2 :=
  neighbors_initial_segment Nat (Grid.new 0 2 2) ⟨0, 0⟩ _ (by decide)

/- Claims C2 and C10: neighbor enumeration. -/

theorem Grid.boundsTest_eq {T : Type} {gr : Grid T} (hwf : gr.WF) (hh1 : 1 ≤ gr.height)
    (hw : gr.width < 2 ^ 63) (hh : gr.height < 2 ^ 63) (t : Int × Int) :
    gr.boundsTest t = some (gr.inBoundsB t) := by
  have hglen : gr.g.length = gr.height := hwf.1
  have hhead : ∃ row0, gr.g.head? = some row0 ∧ row0.length = gr.width := by
    have h0 : 0 < gr.g.length := by omega
    refine ⟨gr.g[0], ?_, hwf.2 _ (List.getElem_mem h0)⟩
    rw [List.head?_eq_getElem?]
    exact List.getElem?_eq_getElem h0
  obtain ⟨row0, hr0, hr0len⟩ := hhead
  unfold Grid.boundsTest
  by_cases hneg : t.1 < 0 ∨ t.2 < 0
  · rw [if_pos hneg]
    have hfalse : gr.inBoundsB t = false := by
      unfold Grid.inBoundsB
      rcases hneg with hn | hn
      · have h1 : decide (0 ≤ t.1) = false := decide_eq_false (by omega)
        simp [h1]
      · have h2 : decide (0 ≤ t.2) = false := decide_eq_false (by omega)
        simp [h2]
    rw [hfalse]
  · rw [if_neg hneg]
    rw [hr0]
    dsimp only
    congr 1
    rw [hr0len, hglen, castIsize_small hw, castIsize_small hh]
    unfold Grid.inBoundsB
    have h1 : decide (0 ≤ t.1) = true := decide_eq_true (by omega)
    have h2 : decide (0 ≤ t.2) = true := decide_eq_true (by omega)
    rw [h1, h2]
    simp

theorem Grid.cellAt_of_inBounds {T : Type} {gr : Grid T} (hwf : gr.WF)
    (hw : gr.width ≤ 2 ^ 64) (hh : gr.height ≤ 2 ^ 64) {t : Int × Int}
    (hb : gr.inBoundsB t = true) : ∃ v, gr.cellAt t = some v := by
  unfold Grid.inBoundsB at hb
  simp only [Bool.and_eq_true, decide_eq_true_eq] at hb
  obtain ⟨⟨⟨h1, h2⟩, h3⟩, h4⟩ := hb
  have hyv : (castUsize t.2 : Int) = t.2 := castUsize_of_nonneg h2 (by omega)
  have hylt : castUsize t.2 < gr.g.length := by
    rw [hwf.1]
    omega
  obtain ⟨row, hrow, hrlen⟩ := grid_row_lookup hwf hylt
  have hxv : (castUsize t.1 : Int) = t.1 := castUsize_of_nonneg h1 (by omega)
  have hxlt : castUsize t.1 < row.length := by
    rw [hrlen]
    omega
  refine ⟨row[castUsize t.1], ?_⟩
  unfold Grid.cellAt
  rw [hrow, Option.some_bind]
  exact List.getElem?_eq_getElem hxlt

theorem foldlM_neighStep_spec {T : Type} {gr : Grid T}
    (hbt : ∀ t, gr.boundsTest t = some (gr.inBoundsB t))
    (hcell : ∀ t, gr.inBoundsB t = true → ∃ v, gr.cellAt t = some v) :
    ∀ (cands : List (Int × Int)) (acc : List (Location × T)),
      cands.foldlM gr.neighStep acc = some (acc ++ gr.neighborsFromSpec cands) := by
  intro cands
  induction cands with
  | nil =>
    intro acc
    rw [List.foldlM_nil]
    simp [Grid.neighborsFromSpec]
  | cons t ts ih =>
    intro acc
    rw [List.foldlM_cons]
    cases hbb : gr.inBoundsB t
    · have hstep : gr.neighStep acc t = some acc := by
        unfold Grid.neighStep
        rw [hbt t, hbb]
        simp
      rw [hstep]
      simp only [Option.bind_eq_bind, Option.some_bind]
      rw [ih acc]
      have hspec : gr.neighborsFromSpec (t :: ts) = gr.neighborsFromSpec ts := by
        unfold Grid.neighborsFromSpec
        rw [List.filterMap_cons]
        simp [hbb]
      rw [hspec]
    · obtain ⟨v, hv⟩ := hcell t hbb
      have hstep : gr.neighStep acc t = some (acc ++ [(Location.mk t.1 t.2, v)]) := by
        unfold Grid.neighStep
        rw [hbt t, hbb]
        simp [hv]
      rw [hstep]
      simp only [Option.bind_eq_bind, Option.some_bind]
      rw [ih (acc ++ [(Location.mk t.1 t.2, v)])]
      have hspec : gr.neighborsFromSpec (t :: ts) =
          (Location.mk t.1 t.2, v) :: gr.neighborsFromSpec ts := by
        unfold Grid.neighborsFromSpec
        rw [List.filterMap_cons]
        simp [hbb, hv]
      rw [hspec]
      simp

theorem Grid.neighborsImpl_eq_spec {T : Type} (gr : Grid T) (l : Location) (all : Bool)
    (hwf : gr.WF) (hh1 : 1 ≤ gr.height) (hw : gr.width < 2 ^ 63) (hh : gr.height < 2 ^ 63) :
    gr.neighborsImpl l all =
      some (gr.neighborsFromSpec (l.orthTests ++ if all then l.diagTests else [])) := by
  have hbt : ∀ t, gr.boundsTest t = some (gr.inBoundsB t) := fun t =>
    Grid.boundsTest_eq hwf hh1 hw hh t
  have hcell : ∀ t, gr.inBoundsB t = true → ∃ v, gr.cellAt t = some v := fun t ht =>
    Grid.cellAt_of_inBounds hwf (by omega) (by omega) ht
  unfold Grid.neighborsImpl
  have := foldlM_neighStep_spec hbt hcell (l.orthTests ++ if all then l.diagTests else []) []
  simpa using this

theorem Grid.neighborsFromSpec_coords {T : Type} {gr : Grid T} {cands : List (Int × Int)}
    {p : Location × T} (hp : p ∈ gr.neighborsFromSpec cands) :
    0 ≤ p.1.x ∧ p.1.x < (gr.width : Int) ∧ 0 ≤ p.1.y ∧ p.1.y < (gr.height : Int) := by
  unfold Grid.neighborsFromSpec at hp
  rcases List.mem_filterMap.mp hp with ⟨t, _, hf⟩
  by_cases hb : gr.inBoundsB t
  · rw [if_pos hb] at hf
    rcases hc : gr.cellAt t with _ | v
    · rw [hc] at hf
      exact Option.noConfusion hf
    · rw [hc] at hf
      have hp2 : (Location.mk t.1 t.2, v) = p := Option.some.inj hf
      cases hp2
      unfold Grid.inBoundsB at hb
      simp only [Bool.and_eq_true, decide_eq_true_eq] at hb
      exact ⟨hb.1.1.1, hb.1.2, hb.1.1.2, hb.2⟩
  · rw [if_neg hb] at hf
    exact Option.noConfusion hf

/-- C2: on a well-formed grid of height at least 1 (dimensions inside the
`isize` range), `neighbors` returns exactly the in-bounds candidates among
`(x+1,y), (x-1,y), (x,y+1), (x,y-1)` — tested and appended in that fixed
order, each paired with the cell stored there, out-of-bounds candidates
silently omitted — and `neighbors_all` additionally tests and appends the
diagonal candidates `(x+1,y+1), (x+1,y-1), (x-1,y+1), (x-1,y-1)` after
them under the same filtering rule; every in-bounds candidate really
contributes (its cell lookup succeeds). -/
theorem neighbors_order_and_filter (T : Type) (gr : Grid T) (l : Location)
    (hwf : gr.WF) (hh1 : 1 ≤ gr.height) (hw : gr.width < 2 ^ 63) (hh : gr.height < 2 ^ 63)
    (hl : l.interiorOk) :
    gr.neighbors l = some (gr.neighborsFromSpec l.orthTests) ∧
    gr.neighborsAll l = some (gr.neighborsFromSpec (l.orthTests ++ l.diagTests)) ∧
    ∀ t ∈ l.orthTests ++ l.diagTests, gr.inBoundsB t = true → ∃ v, gr.cellAt t = some v := by
  refine ⟨?_, ?_, fun t _ ht => Grid.cellAt_of_inBounds hwf (by omega) (by omega) ht⟩
  · have h := Grid.neighborsImpl_eq_spec gr l false hwf hh1 hw hh
    unfold Grid.neighbors
    rw [h]
    simp
  · have h := Grid.neighborsImpl_eq_spec gr l true hwf hh1 hw hh
    unfold Grid.neighborsAll
    rw [h]
    simp

/-- Witness for C2: the interior cell `(1,1)` of the 3-by-3 default grid. -/
theorem neighbors_order_and_filter_witness :
    (Grid.new (0 : Nat) 3 3).neighbors ⟨1, 1⟩ =
      some ((Grid.new (0 : Nat) 3 3).neighborsFromSpec (Location.orthTests ⟨1, 1⟩)) ∧
    (Grid.new (0 : Nat) 3 3).neighborsAll ⟨1, 1⟩ =
      some ((Grid.new (0 : Nat) 3 3).neighborsFromSpec
        (Location.orthTests ⟨1, 1⟩ ++ Location.diagTests ⟨1, 1⟩)) ∧
    ∀ t ∈ Location.orthTests ⟨1, 1⟩ ++ Location.diagTests ⟨1, 1⟩,
      (Grid.new (0 : Nat) 3 3).inBoundsB t = true →
        ∃ v, (Grid.new (0 : Nat) 3 3).cellAt t = some v :=
  neighbors_order_and_filter Nat (Grid.new 0 3 3) ⟨1, 1⟩ (by decide) (by decide) (by decide)
    (by decide) (by decide)

/-- C10: on a well-formed grid of height at least 1, neighbor queries at any
query location whatsoever (any `isize`-interior coordinates, negative or
beyond the dimensions included) complete without a fault — the query
location itself is never indexed — and every returned location lies inside
`[0, width) x [0, height)`. -/
theorem neighbors_never_fault (T : Type) (gr : Grid T) (l : Location)
    (hwf : gr.WF) (hh1 : 1 ≤ gr.height) (hw : gr.width < 2 ^ 63) (hh : gr.height < 2 ^ 63)
    (hl : l.interiorOk) :
    (∃ L, gr.neighbors l = some L ∧ ∀ p ∈ L,
      0 ≤ p.1.x ∧ p.1.x < (gr.width : Int) ∧ 0 ≤ p.1.y ∧ p.1.y < (gr.height : Int)) ∧
    (∃ L, gr.neighborsAll l = some L ∧ ∀ p ∈ L,
      0 ≤ p.1.x ∧ p.1.x < (gr.width : Int) ∧ 0 ≤ p.1.y ∧ p.1.y < (gr.height : Int)) := by
  constructor
  · refine ⟨gr.neighborsFromSpec (l.orthTests ++ []), ?_, fun p hp =>
      Grid.neighborsFromSpec_coords hp⟩
    have h := Grid.neighborsImpl_eq_spec gr l false hwf hh1 hw hh
    unfold Grid.neighbors
    rw [h]
    simp
  · refine ⟨gr.neighborsFromSpec (l.orthTests ++ l.diagTests), ?_, fun p hp =>
      Grid.neighborsFromSpec_coords hp⟩
    have h := Grid.neighborsImpl_eq_spec gr l true hwf hh1 hw hh
    unfold Grid.neighborsAll
    rw [h]
    simp

/-- Witness for C10: a query far outside a 2-by-2 grid completes and returns
only in-bounds locations. -/
theorem neighbors_never_fault_witness :
    (∃ L, (Grid.new (0 : Nat) 2 2).neighbors ⟨-7, 5⟩ = some L ∧ ∀ p ∈ L,
      0 ≤ p.1.x ∧ p.1.x < ((Grid.new (0 : Nat) 2 2).width : Int) ∧
        0 ≤ p.1.y ∧ p.1.y < ((Grid.new (0 : Nat) 2 2).height : Int)) ∧
    (∃ L, (Grid.new (0 : Nat) 2 2).neighborsAll ⟨-7, 5⟩ = some L ∧ ∀ p ∈ L,
      0 ≤ p.1.x ∧ p.1.x < ((Grid.new (0 : Nat) 2 2).width : Int) ∧
        0 ≤ p.1.y ∧ p.1.y < ((Grid.new (0 : Nat) 2 2).height : Int)) :=
  neighbors_never_fault Nat (Grid.new 0 2 2) ⟨-7, 5⟩ (by decide) (by decide) (by decide)
    (by decide) (by decide)

/- Claims C7 and C3 share the iterator machinery. -/

theorem castUsize_zero : castUsize 0 = 0 := rfl

theorem Grid.iterFrom_succ {T : Type} (gr : Grid T) (fuel : Nat) (cur : Option Location) :
    gr.iterFrom (fuel + 1) cur =
      match gr.iterNext cur with
      | none => none
      | some none => some []
      | some (some (item, c)) => (gr.iterFrom fuel (some c)).map fun L => item :: L := rfl

theorem Grid.new_get_origin_empty {T : Type} (d : T) (w h : Nat) (hwh : w = 0 ∨ h = 0) :
    (Grid.new d w h).get? ⟨0, 0⟩ = none := by
  unfold Grid.get? Grid.new
  dsimp only
  rw [castUsize_zero, List.getElem?_replicate]
  rcases hwh with rfl | rfl
  · by_cases h0 : 0 < h
    · rw [if_pos h0, Option.some_bind]
      rfl
    · rw [if_neg h0]
      rfl
  · rw [if_neg (by omega)]
    rfl

theorem Grid.new_iterList_empty {T : Type} (d : T) (w h : Nat) (hwh : w = 0 ∨ h = 0) :
    (Grid.new d w h).iterList = none := by
  unfold Grid.iterList
  have hnext : (Grid.new d w h).iterNext none = none := by
    unfold Grid.iterNext
    rw [Grid.new_get_origin_empty d w h hwh]
  rw [Grid.iterFrom_succ, hnext]

/-- Counterexample to C7: iteration over the legally constructed empty grid
`new(1, 0)` does not terminate immediately with no pairs — the first `next`
call indexes `Location(0,0)` unconditionally and faults; likewise a neighbor
query on a height-`0` grid faults inside the bounds test. -/
theorem empty_grid_cex :
    (Grid.new (0 : Nat) 1 0).iterList = none ∧
      (Grid.new (0 : Nat) 1 0).neighbors ⟨0, 0⟩ = none := by
  constructor
  · exact Grid.new_iterList_empty 0 1 0 (Or.inr rfl)
  · rfl

/-- C7 (amended): constructing a grid with zero width or zero height is
legal and yields a grid with no cells, but the claimed graceful behaviour
holds only partially: iteration faults on the first `next` call instead of
yielding nothing; neighbor queries on a width-`0` grid of positive height
return the empty sequence without faulting, while on a height-`0` grid the
neighbor query at the origin faults. -/
theorem empty_grid_behavior (T : Type) (d : T) :
    (∀ w h : Nat, w = 0 ∨ h = 0 →
      (Grid.new d w h).g.flatten.length = 0 ∧ (Grid.new d w h).iterList = none) ∧
    (∀ h : Nat, 1 ≤ h → h < 2 ^ 63 → ∀ l : Location, l.interiorOk →
      (Grid.new d 0 h).neighbors l = some [] ∧ (Grid.new d 0 h).neighborsAll l = some []) ∧
    (∀ w : Nat, (Grid.new d w 0).neighbors ⟨0, 0⟩ = none) := by
  refine ⟨?_, ?_, ?_⟩
  · intro w h hwh
    constructor
    · unfold Grid.new
      rw [List.length_flatten, List.map_replicate, List.sum_replicate]
      simp only [smul_eq_mul, List.length_replicate]
      rcases hwh with rfl | rfl <;> simp
    · exact Grid.new_iterList_empty d w h hwh
  · intro h hh1 hh l _
    have hwf : (Grid.new d 0 h).WF := by
      refine ⟨by simp [Grid.new], fun row hrow => ?_⟩
      unfold Grid.new at hrow
      dsimp only at hrow
      rw [List.eq_of_mem_replicate hrow]
      simp [Grid.new]
    have hspec : ∀ cands : List (Int × Int),
        (Grid.new d 0 h).neighborsFromSpec cands = [] := by
      intro cands
      unfold Grid.neighborsFromSpec
      rw [List.filterMap_eq_nil_iff]
      intro t _
      have hfalse : (Grid.new d 0 h).inBoundsB t = false := by
        rcases hb : (Grid.new d 0 h).inBoundsB t with _ | _
        · rfl
        · exfalso
          unfold Grid.inBoundsB at hb
          simp only [Bool.and_eq_true, decide_eq_true_eq] at hb
          have hw0 : (Grid.new d 0 h).width = 0 := rfl
          rw [hw0] at hb
          omega
      rw [hfalse]
      rfl
    constructor
    · have heq := Grid.neighborsImpl_eq_spec (Grid.new d 0 h) l false hwf
        (by simpa [Grid.new] using hh1) (by simp [Grid.new]) (by simpa [Grid.new] using hh)
      unfold Grid.neighbors
      rw [heq, hspec]
    · have heq := Grid.neighborsImpl_eq_spec (Grid.new d 0 h) l true hwf
        (by simpa [Grid.new] using hh1) (by simp [Grid.new]) (by simpa [Grid.new] using hh)
      unfold Grid.neighborsAll
      rw [heq, hspec]
  · intro w
    rfl

/-- Witness for C7 at concrete inputs: the 0-by-1 grid iterates into a
fault but answers neighbor queries with the empty list; the 2-by-0 grid
faults on a neighbor query at the origin. -/
theorem empty_grid_behavior_witness :
    ((Grid.new (0 : Nat) 0 1).g.flatten.length = 0 ∧
      (Grid.new (0 : Nat) 0 1).iterList = none) ∧
    ((Grid.new (0 : Nat) 0 1).neighbors ⟨0, 0⟩ = some [] ∧
      (Grid.new (0 : Nat) 0 1).neighborsAll ⟨0, 0⟩ = some []) ∧
    (Grid.new (0 : Nat) 2 0).neighbors ⟨0, 0⟩ = none :=
  ⟨(empty_grid_behavior Nat 0).1 0 1 (Or.inl rfl),
    (empty_grid_behavior Nat 0).2.1 1 (by decide) (by decide) ⟨0, 0⟩ (by decide),
    (empty_grid_behavior Nat 0).2.2 2⟩

/- Claim C1: add / get round trip and default values. -/

theorem Grid.WF_new {T : Type} (d : T) (w h : Nat) : (Grid.new d w h).WF := by
  refine ⟨by simp [Grid.new], fun row hrow => ?_⟩
  unfold Grid.new at hrow
  dsimp only at hrow
  rw [List.eq_of_mem_replicate hrow]
  simp [Grid.new]

theorem Grid.get?_new {T : Type} (d : T) {w h : Nat} (hw : w ≤ 2 ^ 64) (hh : h ≤ 2 ^ 64)
    {l : Location} (hl : inGrid w h l) : (Grid.new d w h).get? l = some d := by
  obtain ⟨hx0, hx1, hy0, hy1⟩ := hl
  have hyv : (castUsize l.y : Int) = l.y := castUsize_of_nonneg hy0 (by omega)
  have hxv : (castUsize l.x : Int) = l.x := castUsize_of_nonneg hx0 (by omega)
  unfold Grid.get? Grid.new
  dsimp only
  rw [List.getElem?_replicate, if_pos (by omega), Option.some_bind, List.getElem?_replicate,
    if_pos (by omega)]

theorem Grid.add?_of_inGrid {T : Type} {gr : Grid T} (hwf : gr.WF)
    (hw : gr.width ≤ 2 ^ 64) (hh : gr.height ≤ 2 ^ 64) {l : Location}
    (hl : inGrid gr.width gr.height l) (t : T) :
    ∃ gr', gr.add? l t = some gr' ∧ gr'.WF ∧ gr'.width = gr.width ∧ gr'.height = gr.height ∧
      gr'.get? l = some t ∧
      ∀ l2, inGrid gr.width gr.height l2 → l2 ≠ l → gr'.get? l2 = gr.get? l2 := by
  obtain ⟨hx0, hx1, hy0, hy1⟩ := hl
  have hyv : (castUsize l.y : Int) = l.y := castUsize_of_nonneg hy0 (by omega)
  have hxv : (castUsize l.x : Int) = l.x := castUsize_of_nonneg hx0 (by omega)
  have hylt : castUsize l.y < gr.g.length := by
    rw [hwf.1]
    omega
  obtain ⟨row, hrow, hrlen⟩ := grid_row_lookup hwf hylt
  have hxlt : castUsize l.x < row.length := by
    rw [hrlen]
    omega
  have hadd : gr.add? l t =
      some { gr with g := gr.g.set (castUsize l.y) (row.set (castUsize l.x) t) } := by
    simp only [Grid.add?]
    rw [hrow]
    dsimp only
    rw [if_pos hxlt]
  refine ⟨_, hadd, ⟨?_, ?_⟩, rfl, rfl, ?_, ?_⟩
  · simp only [List.length_set]
    exact hwf.1
  · intro row2 hrow2
    rcases List.mem_or_eq_of_mem_set hrow2 with hmem | rfl
    · exact hwf.2 _ hmem
    · simp only [List.length_set]
      exact hrlen
  · unfold Grid.get?
    dsimp only
    rw [List.getElem?_set, if_pos rfl, if_pos hylt, Option.some_bind, List.getElem?_set,
      if_pos rfl, if_pos hxlt]
  · intro l2 hl2 hne
    obtain ⟨h2x0, h2x1, h2y0, h2y1⟩ := hl2
    have h2yv : (castUsize l2.y : Int) = l2.y := castUsize_of_nonneg h2y0 (by omega)
    have h2xv : (castUsize l2.x : Int) = l2.x := castUsize_of_nonneg h2x0 (by omega)
    unfold Grid.get?
    dsimp only
    by_cases hyy : castUsize l2.y = castUsize l.y
    · have hxx : castUsize l2.x ≠ castUsize l.x := by
        intro hxeq
        apply hne
        obtain ⟨l2x, l2y⟩ := l2
        obtain ⟨lx, ly⟩ := l
        dsimp only at hyv hxv h2yv h2xv hyy hxeq
        simp only [Location.mk.injEq]
        omega
      rw [hyy, List.getElem?_set, if_pos rfl, if_pos hylt, hrow, Option.some_bind,
        Option.some_bind, List.getElem?_set, if_neg (fun hc => hxx hc.symm)]
    · rw [List.getElem?_set, if_neg (fun hc => hyy hc.symm)]

theorem lastAdded_nil {T : Type} (l : Location) : lastAdded ([] : List (Location × T)) l = none :=
  rfl

theorem lastAdded_cons {T : Type} (p : Location × T) (ops : List (Location × T)) (l : Location) :
    lastAdded (p :: ops) l =
      (lastAdded ops l).or (if p.1 = l then some p.2 else none) := by
  unfold lastAdded
  rw [List.filter_cons]
  by_cases hp : p.1 = l
  · rw [if_pos (by simp [hp]), if_pos hp]
    rcases hfil : ops.filter (fun q => decide (q.1 = l)) with _ | ⟨q, qs⟩
    · rw [hfil]
      rfl
    · rw [hfil, List.getLast?_cons_cons]
      rcases hlast : (q :: qs).getLast? with _ | v2
      · rw [List.getLast?_eq_none_iff] at hlast
        exact absurd hlast (by simp)
      · rfl
  · rw [if_neg (by simp [hp]), if_neg hp, Option.or_none]

theorem applyAdds_get_core {T : Type} (w h : Nat) (hw : w ≤ 2 ^ 64) (hh : h ≤ 2 ^ 64) :
    ∀ (ops : List (Location × T)) (gr : Grid T), gr.WF → gr.width = w → gr.height = h →
      (∀ p ∈ ops, inGrid w h p.1) → ∀ l, inGrid w h l →
      ∃ gf, gr.applyAdds ops = some gf ∧
        gf.get? l = (lastAdded ops l).or (gr.get? l) := by
  intro ops
  induction ops with
  | nil =>
    intro gr _ _ _ _ l _
    exact ⟨gr, rfl, by rw [lastAdded_nil, Option.none_or]⟩
  | cons p ops ih =>
    intro gr hwf hgw hgh hops l hl
    have hp : inGrid gr.width gr.height p.1 := by
      rw [hgw, hgh]
      exact hops p (by simp)
    obtain ⟨gr1, hadd, hwf1, hw1, hh1, hgetp, hgetother⟩ :=
      Grid.add?_of_inGrid hwf (by omega) (by omega) hp p.2
    obtain ⟨gf, happ2, hget⟩ := ih gr1 hwf1 (hw1.trans hgw) (hh1.trans hgh)
      (fun q hq => hops q (by simp [hq])) l hl
    refine ⟨gf, ?_, ?_⟩
    · unfold Grid.applyAdds at happ2 ⊢
      rw [List.foldlM_cons, hadd]
      simp only [Option.bind_eq_bind, Option.some_bind]
      exact happ2
    · rw [hget, lastAdded_cons, Option.or_assoc]
      congr 1
      by_cases hpl : p.1 = l
      · rw [if_pos hpl]
        subst hpl
        exact hgetp
      · rw [if_neg hpl, Option.none_or]
        refine hgetother l ?_ (fun he => hpl he.symm)
        rw [hgw, hgh]
        exact hl

/-- C1: starting from `new(w, h)` and performing any in-range sequence of
`add` calls, `get` at any in-range location returns the value of the most
recent `add` at that location, or the default value if none was ever
performed there; in particular an `add` immediately followed by `get` at
the same location returns the just-added value. -/
theorem add_get_round_trip (T : Type) (d : T) (w h : Nat) (hw : w ≤ 2 ^ 64) (hh : h ≤ 2 ^ 64)
    (ops : List (Location × T)) (hops : ∀ p ∈ ops, inGrid w h p.1) (l : Location)
    (hl : inGrid w h l) :
    ∃ gf, (Grid.new d w h).applyAdds ops = some gf ∧
      gf.get? l = (lastAdded ops l).or (some d) := by
  obtain ⟨gf, happ, hget⟩ := applyAdds_get_core w h hw hh ops (Grid.new d w h)
    (Grid.WF_new d w h) rfl rfl hops l hl
  refine ⟨gf, happ, ?_⟩
  rw [hget, Grid.get?_new d hw hh hl]

/-- Witness for C1: the specification scenario — a 3-by-3 grid of naturals,
`add((1,1), 5)` then `get((1,1))`. -/
theorem add_get_round_trip_witness :
    ∃ gf, (Grid.new (0 : Nat) 3 3).applyAdds [(⟨1, 1⟩, 5)] = some gf ∧
      gf.get? ⟨1, 1⟩ = (lastAdded [(⟨1, 1⟩, (5 : Nat))] ⟨1, 1⟩).or (some 0) :=
  add_get_round_trip Nat 0 3 3 (by decide) (by decide) [(⟨1, 1⟩, 5)] (by decide) ⟨1, 1⟩
    (by decide)

/- Claim C3: row-major iteration. -/

theorem Grid.get?_of_inGrid {T : Type} {gr : Grid T} (hwf : gr.WF)
    (hw : gr.width ≤ 2 ^ 64) (hh : gr.height ≤ 2 ^ 64) {l : Location}
    (hl : inGrid gr.width gr.height l) : ∃ v, gr.get? l = some v := by
  obtain ⟨hx0, hx1, hy0, hy1⟩ := hl
  have hyv : (castUsize l.y : Int) = l.y := castUsize_of_nonneg hy0 (by omega)
  have hylt : castUsize l.y < gr.g.length := by
    rw [hwf.1]
    omega
  obtain ⟨row, hrow, hrlen⟩ := grid_row_lookup hwf hylt
  have hxv : (castUsize l.x : Int) = l.x := castUsize_of_nonneg hx0 (by omega)
  have hxlt : castUsize l.x < row.length := by
    rw [hrlen]
    omega
  refine ⟨row[castUsize l.x], ?_⟩
  unfold Grid.get?
  rw [hrow, Option.some_bind]
  exact List.getElem?_eq_getElem hxlt

theorem idxLoc_inGrid {w h i : Nat} (hw1 : 1 ≤ w) (hi : i < w * h) :
    inGrid w h (idxLoc w i) := by
  have hm : i % w < w := Nat.mod_lt _ (by omega)
  have hd : i / w < h := by
    by_contra hge
    push_neg at hge
    have h2 : w * h ≤ w * (i / w) := Nat.mul_le_mul_left _ hge
    have hdm := Nat.div_add_mod i w
    omega
  unfold inGrid idxLoc
  dsimp only
  exact ⟨Int.natCast_nonneg _, by exact_mod_cast hm, Int.natCast_nonneg _, by exact_mod_cast hd⟩

theorem Grid.iterNext_of_nowrap {T : Type} (gr : Grid T) (cx cy : Int)
    (hw : gr.width < 2 ^ 63) (hh : gr.height < 2 ^ 63)
    (hcx : ¬ cx + 1 ≥ (gr.width : Int)) (hcy : ¬ cy ≥ (gr.height : Int)) :
    gr.iterNext (some (Location.mk cx cy)) =
      match gr.get? (Location.mk (cx + 1) cy) with
      | none => none
      | some v => some (some ((Location.mk (cx + 1) cy, v), Location.mk (cx + 1) cy)) := by
  unfold Grid.iterNext
  dsimp only
  rw [if_neg (by omega), if_neg (by omega), if_neg hcx]
  dsimp only
  rw [if_neg hcy]

theorem Grid.iterNext_wrap_fin {T : Type} (gr : Grid T) (cx cy : Int)
    (hw : gr.width < 2 ^ 63) (hh : gr.height < 2 ^ 63)
    (hcx : cx + 1 ≥ (gr.width : Int)) (hcy : cy + 1 ≥ (gr.height : Int)) :
    gr.iterNext (some (Location.mk cx cy)) = some none := by
  unfold Grid.iterNext
  dsimp only
  rw [if_neg (by omega), if_neg (by omega), if_pos hcx]
  dsimp only
  rw [if_pos hcy]

theorem Grid.iterNext_wrap_cont {T : Type} (gr : Grid T) (cx cy : Int)
    (hw : gr.width < 2 ^ 63) (hh : gr.height < 2 ^ 63)
    (hcx : cx + 1 ≥ (gr.width : Int)) (hcy : ¬ cy + 1 ≥ (gr.height : Int)) :
    gr.iterNext (some (Location.mk cx cy)) =
      match gr.get? (Location.mk 0 (cy + 1)) with
      | none => none
      | some v => some (some ((Location.mk 0 (cy + 1), v), Location.mk 0 (cy + 1))) := by
  unfold Grid.iterNext
  dsimp only
  rw [if_neg (by omega), if_neg (by omega), if_pos hcx]
  dsimp only
  rw [if_neg hcy]

theorem iterFrom_spec {T : Type} {gr : Grid T} (hwf : gr.WF) (hw1 : 1 ≤ gr.width)
    (hw : gr.width < 2 ^ 63) (hh1 : 1 ≤ gr.height) (hh : gr.height < 2 ^ 63) :
    ∀ (fuel i : Nat), i < gr.width * gr.height → gr.width * gr.height = i + fuel →
      ∃ L, gr.iterFrom fuel (some (idxLoc gr.width i)) = some L ∧
        L.map Prod.fst =
          ((List.range (gr.width * gr.height)).drop (i + 1)).map (idxLoc gr.width) ∧
        ∀ p ∈ L, gr.get? p.1 = some p.2 := by
  intro fuel
  induction fuel with
  | zero =>
    intro i hi hfe
    omega
  | succ fuel ih =>
    intro i hi hfe
    have hdm := Nat.div_add_mod i gr.width
    have hmlt : i % gr.width < gr.width := Nat.mod_lt _ (by omega)
    have hdlt : i / gr.width < gr.height := by
      by_contra hge
      push_neg at hge
      have h2 : gr.width * gr.height ≤ gr.width * (i / gr.width) :=
        Nat.mul_le_mul_left _ hge
      omega
    rw [Grid.iterFrom_succ,
      show idxLoc gr.width i = Location.mk (i % gr.width : Nat) (i / gr.width : Nat) from rfl]
    by_cases hc : i % gr.width + 1 < gr.width
    · rw [Grid.iterNext_of_nowrap gr _ _ hw hh (by push_cast; omega) (by push_cast; omega)]
      have hloceq : Location.mk ((i % gr.width : Nat) + 1) (i / gr.width : Nat) =
          idxLoc gr.width (i + 1) := by
        have hi1 : i + 1 = (i % gr.width + 1) + gr.width * (i / gr.width) := by omega
        have e1 : (i + 1) % gr.width = i % gr.width + 1 := by
          rw [hi1, Nat.add_mul_mod_self_left]
          exact Nat.mod_eq_of_lt hc
        have e2 : (i + 1) / gr.width = i / gr.width := by
          rw [hi1, Nat.add_mul_div_left _ _ (by omega), Nat.div_eq_of_lt hc]
          omega
        have hx : ((i % gr.width : Nat) : Int) + 1 = ((i % gr.width + 1 : Nat) : Int) := by
          push_cast
          ring
        rw [hx, ← e1, ← e2]
        rfl
      have hi1lt : i + 1 < gr.width * gr.height := by
        have h2 : gr.width * (i / gr.width + 1) ≤ gr.width * gr.height :=
          Nat.mul_le_mul_left _ (by omega)
        have h3 : gr.width * (i / gr.width + 1) = gr.width * (i / gr.width) + gr.width := by
          ring
        omega
      obtain ⟨v, hv⟩ := Grid.get?_of_inGrid hwf (by omega) (by omega)
        (idxLoc_inGrid hw1 hi1lt)
      rw [hloceq, hv]
      dsimp only
      obtain ⟨L2, hL2, hmap2, hvals2⟩ := ih (i + 1) hi1lt (by omega)
      refine ⟨(idxLoc gr.width (i + 1), v) :: L2, ?_, ?_, ?_⟩
      · rw [hL2]
        rfl
      · rw [List.map_cons, hmap2]
        have hlen : i + 1 < (List.range (gr.width * gr.height)).length := by
          rw [List.length_range]
          exact hi1lt
        rw [List.drop_eq_getElem_cons hlen, List.getElem_range, List.map_cons]
      · intro p hp
        rcases List.mem_cons.mp hp with rfl | hp2
        · exact hv
        · exact hvals2 p hp2
    · by_cases hfin : gr.height ≤ i / gr.width + 1
      · rw [Grid.iterNext_wrap_fin gr _ _ hw hh (by push_cast; omega) (by push_cast; omega)]
        refine ⟨[], rfl, ?_, by simp⟩
        have hge : gr.width * gr.height ≤ i + 1 := by
          have h2 : gr.width * gr.height ≤ gr.width * (i / gr.width + 1) :=
            Nat.mul_le_mul_left _ hfin
          have h3 : gr.width * (i / gr.width + 1) = gr.width * (i / gr.width) + gr.width := by
            ring
          omega
        rw [List.drop_eq_nil_of_le (by rw [List.length_range]; omega)]
        simp
      · push_neg at hfin
        rw [Grid.iterNext_wrap_cont gr _ _ hw hh (by push_cast; omega) (by push_cast; omega)]
        have hie : i + 1 = gr.width * (i / gr.width + 1) := by
          have h3 : gr.width * (i / gr.width + 1) = gr.width * (i / gr.width) + gr.width := by
            ring
          omega
        have hloceq : Location.mk 0 ((i / gr.width : Nat) + 1) = idxLoc gr.width (i + 1) := by
          have e1 : (i + 1) % gr.width = 0 := by
            rw [hie]
            exact Nat.mul_mod_right _ _
          have e2 : (i + 1) / gr.width = i / gr.width + 1 := by
            rw [hie]
            exact Nat.mul_div_cancel_left _ (by omega)
          have hy : ((i / gr.width : Nat) : Int) + 1 = ((i / gr.width + 1 : Nat) : Int) := by
            push_cast
            ring
          unfold idxLoc
          rw [e1, e2, hy]
          norm_num
        have hi1lt : i + 1 < gr.width * gr.height := by
          have h2 : gr.width * (i / gr.width + 2) ≤ gr.width * gr.height :=
            Nat.mul_le_mul_left _ (by omega)
          have h3 : gr.width * (i / gr.width + 2) =
              gr.width * (i / gr.width + 1) + gr.width := by
            ring
          omega
        obtain ⟨v, hv⟩ := Grid.get?_of_inGrid hwf (by omega) (by omega)
          (idxLoc_inGrid hw1 hi1lt)
        rw [hloceq, hv]
        dsimp only
        obtain ⟨L2, hL2, hmap2, hvals2⟩ := ih (i + 1) hi1lt (by omega)
        refine ⟨(idxLoc gr.width (i + 1), v) :: L2, ?_, ?_, ?_⟩
        · rw [hL2]
          rfl
        · rw [List.map_cons, hmap2]
          have hlen : i + 1 < (List.range (gr.width * gr.height)).length := by
            rw [List.length_range]
            exact hi1lt
          rw [List.drop_eq_getElem_cons hlen, List.getElem_range, List.map_cons]
        · intro p hp
          rcases List.mem_cons.mp hp with rfl | hp2
          · exact hv
          · exact hvals2 p hp2

theorem range_map_idxLoc (w : Nat) (hw1 : 1 ≤ w) :
    ∀ h : Nat, (List.range (w * h)).map (idxLoc w) = rowMajorLocs w h := by
  intro h
  induction h with
  | zero =>
    rw [Nat.mul_zero]
    rfl
  | succ h ih =>
    rw [show w * (h + 1) = w * h + w from by ring, List.range_add, List.map_append, ih]
    unfold rowMajorLocs
    rw [List.range_succ, List.flatMap_append]
    congr 1
    rw [List.map_map]
    simp only [List.flatMap_cons, List.flatMap_nil, List.append_nil]
    apply List.map_congr_left
    intro j hj
    have hjw : j < w := List.mem_range.mp hj
    have e1 : (w * h + j) % w = j := by
      rw [Nat.mul_add_mod]
      exact Nat.mod_eq_of_lt hjw
    have e2 : (w * h + j) / w = h := by
      rw [Nat.mul_add_div (by omega), Nat.div_eq_of_lt hjw]
      omega
    simp only [Function.comp_apply]
    unfold idxLoc
    rw [e1, e2]

theorem idxLoc_cmp_lt {w : Nat} (hw1 : 1 ≤ w) {i j : Nat} (hij : i < j) :
    (idxLoc w i).cmp (idxLoc w j) = Ordering.lt := by
  rw [Location.cmp_eq_lt]
  unfold idxLoc
  dsimp only
  have hd : i / w ≤ j / w := Nat.div_le_div_right (le_of_lt hij)
  rcases eq_or_lt_of_le hd with heq | hlt
  · right
    refine ⟨by exact_mod_cast heq, ?_⟩
    have e1 := Nat.div_add_mod i w
    have e2 := Nat.div_add_mod j w
    rw [heq] at e1
    have hmm : i % w < j % w := by omega
    exact_mod_cast hmm
  · left
    exact_mod_cast hlt

theorem Location.cmp_lt_ne {a b : Location} (h : a.cmp b = Ordering.lt) : a ≠ b := by
  rintro rfl
  rw [Location.cmp_eq_lt] at h
  omega

theorem rowMajorLocs_pairwise (w h : Nat) (hw1 : 1 ≤ w) :
    (rowMajorLocs w h).Pairwise fun a b => Location.cmp a b = Ordering.lt := by
  rw [← range_map_idxLoc w hw1 h, List.pairwise_map]
  exact List.Pairwise.imp (fun hab => idxLoc_cmp_lt hw1 hab) (List.pairwise_lt_range _)

theorem rowMajorLocs_nodup (w h : Nat) (hw1 : 1 ≤ w) : (rowMajorLocs w h).Nodup :=
  List.Pairwise.imp (fun hab => Location.cmp_lt_ne hab) (rowMajorLocs_pairwise w h hw1)

theorem mem_rowMajorLocs {w h c r : Nat} (hc : c < w) (hr : r < h) :
    Location.mk c r ∈ rowMajorLocs w h := by
  unfold rowMajorLocs
  rw [List.mem_flatMap]
  exact ⟨r, List.mem_range.mpr hr, List.mem_map.mpr ⟨c, List.mem_range.mpr hc, rfl⟩⟩

/-- Counterexample to C3: for the legally constructed grid `new(0, 1)` the
claim promises `0 * 1 = 0` yielded pairs, but the very first `next` call
faults (it unconditionally starts at `Location(0,0)` and calls `get`
there), so the traversal produces no list at all. -/
theorem iter_empty_cex : (Grid.new (0 : Nat) 0 1).iterList = none :=
  Grid.new_iterList_empty 0 0 1 (Or.inl rfl)

/-- C3 (amended): for every grid `new(X, Y)` with `X ≥ 1` and `Y ≥ 1`
(dimensions inside the `isize` range), `iter()` yields exactly `X * Y`
pairs; the yielded locations are exactly the row-major enumeration — row 0
left to right, then row 1, and so on — hence strictly increasing in the
`Location` order, with every coordinate of `[0,X) x [0,Y)` appearing
exactly once, and every yielded value is the default the grid was filled
with; when `X = 0` or `Y = 0` the first `next` call faults instead of
yielding nothing. -/
theorem iter_row_major (T : Type) (d : T) (w h : Nat)
    (hw1 : 1 ≤ w) (hw : w < 2 ^ 63) (hh1 : 1 ≤ h) (hh : h < 2 ^ 63) :
    ∃ L, (Grid.new d w h).iterList = some L ∧
      L.map Prod.fst = rowMajorLocs w h ∧
      L.length = w * h ∧
      (L.map Prod.fst).Pairwise (fun a b => Location.cmp a b = Ordering.lt) ∧
      (∀ c r : Nat, c < w → r < h → (L.map Prod.fst).count (Location.mk c r) = 1) ∧
      ∀ p ∈ L, p.2 = d := by
  have hwf := Grid.WF_new d w h
  have hin00 : inGrid w h (Location.mk 0 0) := by
    unfold inGrid
    dsimp only
    refine ⟨le_refl _, by exact_mod_cast hw1, le_refl _, by exact_mod_cast hh1⟩
  have hv0 : (Grid.new d w h).get? (Location.mk 0 0) = some d :=
    Grid.get?_new d (by omega) (by omega) hin00
  have hnext0 : (Grid.new d w h).iterNext none =
      some (some ((Location.mk 0 0, d), Location.mk 0 0)) := by
    unfold Grid.iterNext
    rw [hv0]
  have h0pos : 0 < w * h := Nat.mul_pos (by omega) (by omega)
  obtain ⟨L1, hL1, hmap1, hvals1⟩ := iterFrom_spec hwf hw1 hw hh1 hh (w * h) 0 h0pos
    (Nat.zero_add (w * h)).symm
  have h0eq : Location.mk 0 0 = idxLoc w 0 := by
    unfold idxLoc
    rw [Nat.zero_mod, Nat.zero_div]
    norm_num
  have hfull : L1.map Prod.fst = ((List.range (w * h)).drop 1).map (idxLoc w) := hmap1
  have hmapfst : Location.mk 0 0 :: L1.map Prod.fst = rowMajorLocs w h := by
    rw [hfull, ← range_map_idxLoc w hw1 h]
    have hr : List.range (w * h) = 0 :: (List.range (w * h)).drop 1 := by
      conv_lhs => rw [← List.drop_zero (List.range (w * h))]
      rw [List.drop_eq_getElem_cons (by rw [List.length_range]; omega), List.getElem_range]
    conv_rhs => rw [hr]
    rw [List.map_cons, h0eq]
  have hmapfst2 : ((Location.mk 0 0, d) :: L1).map Prod.fst = rowMajorLocs w h := by
    rw [List.map_cons]
    exact hmapfst
  refine ⟨(Location.mk 0 0, d) :: L1, ?_, ?_, ?_, ?_, ?_, ?_⟩
  · unfold Grid.iterList
    rw [Grid.iterFrom_succ, hnext0]
    dsimp only
    rw [h0eq]
    have hL1x : (Grid.new d w h).iterFrom ((Grid.new d w h).width * (Grid.new d w h).height)
        (some (idxLoc w 0)) = some L1 := hL1
    rw [hL1x]
    rfl
  · exact hmapfst2
  · have hlen := congrArg List.length hmapfst2
    rw [List.length_map] at hlen
    rw [hlen, ← range_map_idxLoc w hw1 h, List.length_map, List.length_range]
  · rw [hmapfst2]
    exact rowMajorLocs_pairwise w h hw1
  · intro c r hc hr
    rw [hmapfst2]
    exact List.count_eq_one_of_mem (rowMajorLocs_nodup w h hw1) (mem_rowMajorLocs hc hr)
  · intro p hp
    rcases List.mem_cons.mp hp with rfl | hp1
    · rfl
    · have h1 : p.1 ∈ L1.map Prod.fst := List.mem_map_of_mem _ hp1
      rw [hfull] at h1
      obtain ⟨j, hj, hpe⟩ := List.mem_map.mp h1
      have hjlt : j < w * h := List.mem_range.mp (List.mem_of_mem_drop hj)
      have hval := hvals1 p hp1
      rw [← hpe, Grid.get?_new d (by omega) (by omega) (idxLoc_inGrid hw1 hjlt)] at hval
      exact (Option.some.inj hval).symm

/-- Witness for C3: the 2-by-2 default grid. -/
theorem iter_row_major_witness :
    ∃ L, (Grid.new (0 : Nat) 2 2).iterList = some L ∧
      L.map Prod.fst = rowMajorLocs 2 2 ∧
      L.length = 2 * 2 ∧
      (L.map Prod.fst).Pairwise (fun a b => Location.cmp a b = Ordering.lt) ∧
      (∀ c r : Nat, c < 2 → r < 2 → (L.map Prod.fst).count (Location.mk c r) = 1) ∧
      ∀ p ∈ L, p.2 = 0 :=
  iter_row_major Nat 0 2 2 (by decide) (by decide) (by decide) (by decide)
